import Mathlib

/-!
# Verification of the Demoblaze cart test suite's core logic

Shallow embedding of the repository's price normalizer (`src/utils/money.ts`,
`parsePrice`) and of the `CartPage` operations (`src/pages/CartPage.ts`),
together with proofs of the specified properties.

Modelling conventions:
* JavaScript numbers produced by `Number.parseFloat` are idealized as exact
  rationals (`ℚ`).  After the stripping pass the parsed text contains only
  decimal digits and dots, so no exponent, sign, or `Infinity` form can
  occur: the parse yields an exact finite decimal, or `NaN`, modelled as
  `none`.
* The Playwright-driven storefront collaborator (out of scope of the
  repository's own code, specified at its interface boundary in the spec) is
  modelled from the spec as a list of line items, each carrying a display
  name and an integer Money amount, rendered to decimal text.
-/

namespace Demoblaze

/-! ## Price normalizer (`src/utils/money.ts`) -/

/-- A character kept by the stripping pass: the JS regex `/[^\d.]/g` removes
everything that is not a decimal digit or a dot. -/
def isPriceChar (c : Char) : Bool := c.isDigit || c == '.'

/-- The stripping pass `text.replace(/[^\d.]/g, '')`: remove every character
that is not a decimal digit or a dot, in one pass. -/
def stripNonPrice (s : String) : String := String.mk (s.data.filter isPriceChar)

/-- Numeric value of a decimal digit character. -/
def digitVal (c : Char) : Nat := c.toNat - 48

/-- Value of a digit string read left to right (the integer part of a JS
float literal). -/
def digitsToNat (l : List Char) : Nat :=
  l.foldl (fun acc c => 10 * acc + digitVal c) 0

/-- Value of the fractional digits following the decimal point. -/
def fracVal : List Char → ℚ
  | [] => 0
  | c :: rest => ((digitVal c : ℚ) + fracVal rest) / 10

/-- The behaviour of `Number.parseFloat` on a string containing only decimal
digits and dots (the only inputs it receives inside `parsePrice`, after the
stripping pass): the longest prefix of the form `digits`, `digits.digits`,
`digits.` or `.digits` is parsed as an exact decimal; if no such prefix
exists the result is `NaN`, modelled as `none`. -/
def parseFloatStripped (s : String) : Option ℚ :=
  let cs := s.data
  let intPart := cs.takeWhile Char.isDigit
  match cs.dropWhile Char.isDigit with
  | '.' :: rest =>
      let fracPart := rest.takeWhile Char.isDigit
      if intPart.isEmpty && fracPart.isEmpty then none
      else some ((digitsToNat intPart : ℚ) + fracVal fracPart)
  | _ => if intPart.isEmpty then none else some ((digitsToNat intPart : ℚ))

/-- The behaviour of `Math.round` on a finite value: round half toward
positive infinity, `⌊x + 1/2⌋`. -/
def jsRound (q : ℚ) : Int := ⌊q + 1 / 2⌋

/-- The function `parsePrice` from `src/utils/money.ts`:
```ts
const digits = text.replace(/[^\d.]/g, '');
const n = Number.parseFloat(digits || '0');
return Math.round(Number.isFinite(n) ? n : 0);
```
The empty string is falsy in JS, so `digits || '0'` replaces an empty
remainder by `"0"`; `parseFloat` on digits-and-dots text returns either a
finite value or `NaN`, and the `Number.isFinite` guard maps `NaN` to `0`
before rounding. -/
def parsePrice (text : String) : Int :=
  let digits := stripNonPrice text
  let digitsOr0 := if digits = "" then "0" else digits
  match parseFloatStripped digitsOr0 with
  | some n => jsRound n
  | none => jsRound 0

/-! ### Basic facts about the normalizer -/

theorem digitVal_c0 : digitVal '0' = 0 := rfl
theorem digitVal_c5 : digitVal '5' = 5 := rfl
theorem digitVal_c6 : digitVal '6' = 6 := rfl

theorem jsRound_natCast (n : ℕ) : jsRound (n : ℚ) = n := by
  unfold jsRound
  rw [show ((n : ℚ) + 1 / 2) = ((n : ℤ) : ℚ) + 1 / 2 by push_cast; ring,
    Int.floor_int_add]
  norm_num

theorem jsRound_zero : jsRound 0 = 0 := by
  have := jsRound_natCast 0
  simpa using this

theorem fracVal_nonneg (l : List Char) : 0 ≤ fracVal l := by
  induction l with
  | nil => simp [fracVal]
  | cons c rest ih =>
    unfold fracVal
    have h0 : (0 : ℚ) ≤ (digitVal c : ℚ) := Nat.cast_nonneg _
    positivity

theorem parseFloatStripped_nonneg {s : String} {q : ℚ}
    (h : parseFloatStripped s = some q) : 0 ≤ q := by
  simp only [parseFloatStripped] at h
  split at h
  · split at h
    · exact absurd h (by simp)
    · obtain rfl : _ = q := Option.some.inj h
      exact add_nonneg (Nat.cast_nonneg _) (fracVal_nonneg _)
  · split at h
    · exact absurd h (by simp)
    · obtain rfl : _ = q := Option.some.inj h
      exact Nat.cast_nonneg _

theorem jsRound_nonneg {q : ℚ} (h : 0 ≤ q) : 0 ≤ jsRound q := by
  unfold jsRound
  refine Int.le_floor.mpr ?_
  push_cast
  linarith

/-! ### Claims about the normalizer -/

/-- The spec's description of the normalization algorithm, written from the
spec's words for comparison with `parsePrice`: strip every character that is
not a decimal digit or a decimal point in a single pass; parse the remaining
text as a floating-point number, treating an empty remainder or a failed
parse as zero; round the result to the nearest integer. -/
def specNormalize (text : String) : Int :=
  let stripped := stripNonPrice text
  let amount : ℚ :=
    match parseFloatStripped stripped with
    | some q => q
    | none => 0
  jsRound amount

/-- C2: `parsePrice` follows exactly the algorithm stated by the spec: strip
every non-digit, non-dot character in one pass, parse the remainder as a
float with empty or unparseable remainders treated as zero, and round to the
nearest integer. -/
theorem parsePrice_eq_specNormalize (text : String) :
    parsePrice text = specNormalize text := by
  by_cases hs : stripNonPrice text = ""
  · have h0 : parseFloatStripped "0" = some ((digitsToNat ['0'] : ℚ)) := rfl
    have he : parseFloatStripped "" = none := rfl
    simp only [parsePrice, specNormalize, hs, if_pos, he, h0]
    norm_num [digitVal_c0, digitsToNat]
  · simp only [parsePrice, specNormalize, if_neg hs]
    cases hq : parseFloatStripped (stripNonPrice text) <;> simp [hq]

/-- C3: the five documented input/output pairs of the normalizer:
`parsePrice "$790" = 790`, `parsePrice "790.50" = 791`,
`parsePrice "$1,234.56" = 1235`, `parsePrice "" = 0` and
`parsePrice "free" = 0`. -/
theorem parsePrice_concrete_values :
    parsePrice "$790" = 790 ∧ parsePrice "790.50" = 791 ∧
      parsePrice "$1,234.56" = 1235 ∧ parsePrice "" = 0 ∧
      parsePrice "free" = 0 := by
  refine ⟨?_, ?_, ?_, ?_, ?_⟩
  · show jsRound ((digitsToNat ['7', '9', '0'] : ℚ)) = 790
    norm_num [jsRound, (by decide : digitsToNat ['7', '9', '0'] = 790)]
  · show jsRound ((digitsToNat ['7', '9', '0'] : ℚ) + fracVal ['5', '0']) = 791
    norm_num [jsRound, fracVal, digitVal_c5, digitVal_c0,
      (by decide : digitsToNat ['7', '9', '0'] = 790)]
  · show jsRound ((digitsToNat ['1', '2', '3', '4'] : ℚ) + fracVal ['5', '6']) = 1235
    norm_num [jsRound, fracVal, digitVal_c5, digitVal_c6,
      (by decide : digitsToNat ['1', '2', '3', '4'] = 1234)]
  · show jsRound ((digitsToNat ['0'] : ℚ)) = 0
    norm_num [jsRound, (by decide : digitsToNat ['0'] = 0)]
  · show jsRound ((digitsToNat ['0'] : ℚ)) = 0
    norm_num [jsRound, (by decide : digitsToNat ['0'] = 0)]

/-- C4: the normalizer is total: on every input string it returns a
well-defined (finite) integer, and on unparseable input — any string whose
stripped remainder does not parse as a float, the empty remainder included —
it degrades to zero.  Totality and absence of exceptions hold by
construction of the embedding: `parsePrice` is a total Lean function into
`ℤ`. -/
theorem parsePrice_total_degrade (text : String) :
    (∃ z : Int, parsePrice text = z) ∧
      (parseFloatStripped (stripNonPrice text) = none → parsePrice text = 0) := by
  refine ⟨⟨parsePrice text, rfl⟩, fun hnone => ?_⟩
  by_cases hs : stripNonPrice text = ""
  · have h0 : parseFloatStripped "0" = some ((digitsToNat ['0'] : ℚ)) := rfl
    simp only [parsePrice, hs, if_pos, h0]
    norm_num [jsRound, digitVal_c0, digitsToNat]
  · simp only [parsePrice, if_neg hs, hnone, jsRound_zero]

theorem parsePrice_total_degrade_witness : parsePrice "free" = 0 :=
  (parsePrice_total_degrade "free").2 rfl

/-- C9: the normalizer is deterministic: two calls on the same input string
return the same output.  Side-effect freedom holds by construction of the
embedding: `parsePrice` is a pure function of its input, mirroring the
source, which reads and writes no state outside its locals. -/
theorem parsePrice_deterministic (t1 t2 : String) (h : t1 = t2) :
    parsePrice t1 = parsePrice t2 :=
  congrArg parsePrice h

theorem parsePrice_deterministic_witness :
    parsePrice "$790" = parsePrice "$790" :=
  parsePrice_deterministic "$790" "$790" rfl

/-- C10: the normalizer never returns a negative integer: the stripping pass
removes any minus sign before parsing, so every parsed value is a sum of
non-negative digit contributions, and rounding preserves non-negativity. -/
theorem parsePrice_nonneg (text : String) : 0 ≤ parsePrice text := by
  simp only [parsePrice]
  split
  · exact jsRound_nonneg (parseFloatStripped_nonneg (by assumption))
  · exact jsRound_nonneg le_rfl

/-! ## Storefront collaborator model

The cart page object drives a remote storefront through Playwright.  The
storefront itself is outside the repository's code; the spec specifies it at
its interface boundary: it owns an ordered list of line items (display name,
Money amount) and reports, as raw text, each item's name, each item's price,
and the aggregate total, the latter being the sum of the item amounts (the
storefront is the oracle and renders prices in plain decimal convention). -/

/-- Decimal digit character for a value below ten. -/
def digitChar (d : Nat) : Char := Char.ofNat (48 + d)

/-- Modelled from the spec: the storefront renders a Money amount (a
non-negative integer in the display currency) as plain decimal digit text —
the single supported textual convention of the price normalizer. -/
def renderNat (n : Nat) : String :=
  if n = 0 then "0" else String.mk (((Nat.digits 10 n).map digitChar).reverse)

theorem digitChar_isDigit {d : Nat} (h : d < 10) :
    (digitChar d).isDigit = true := by
  interval_cases d <;> decide

theorem digitVal_digitChar {d : Nat} (h : d < 10) :
    digitVal (digitChar d) = d := by
  interval_cases d <;> decide

theorem digitsToNat_digits (n : Nat) :
    digitsToNat (((Nat.digits 10 n).map digitChar).reverse) = n := by
  induction n using Nat.strong_induction_on with
  | _ n ih =>
    rcases Nat.eq_zero_or_pos n with rfl | hn
    · simp [digitsToNat]
    · rw [Nat.digits_def' (by norm_num : (1 : ℕ) < 10) hn, List.map_cons,
        List.reverse_cons]
      unfold digitsToNat
      rw [List.foldl_append, List.foldl_cons, List.foldl_nil]
      have hrec := ih (n / 10) (Nat.div_lt_self hn (by norm_num))
      unfold digitsToNat at hrec
      rw [hrec, digitVal_digitChar (Nat.mod_lt n (by norm_num))]
      omega

theorem renderNat_all_digits (n : Nat) :
    ∀ c ∈ (renderNat n).data, c.isDigit := by
  unfold renderNat
  split
  · intro c hc
    have : c = '0' := by simpa using hc
    subst this
    decide
  · intro c hc
    rw [show (String.mk (((Nat.digits 10 n).map digitChar).reverse)).data
        = ((Nat.digits 10 n).map digitChar).reverse from rfl,
      List.mem_reverse] at hc
    obtain ⟨d, hd, rfl⟩ := List.mem_map.mp hc
    exact digitChar_isDigit (Nat.digits_lt_base (by norm_num) hd)

theorem renderNat_ne_empty (n : Nat) : renderNat n ≠ "" := by
  unfold renderNat
  split
  · decide
  · intro hcon
    have hdata : ((Nat.digits 10 n).map digitChar).reverse = [] :=
      congrArg String.data hcon
    simp only [List.reverse_eq_nil_iff, List.map_eq_nil_iff] at hdata
    exact (Nat.digits_ne_nil_iff_ne_zero.mpr (by assumption)) hdata

theorem parseFloatStripped_all_digits {l : List Char}
    (hdig : ∀ c ∈ l, c.isDigit) (hne : l ≠ []) :
    parseFloatStripped (String.mk l) = some ((digitsToNat l : ℚ)) := by
  simp only [parseFloatStripped]
  rw [List.takeWhile_eq_self_iff.mpr hdig, List.dropWhile_eq_nil_iff.mpr hdig]
  show (if l.isEmpty then none else some ((digitsToNat l : ℚ)))
      = some ((digitsToNat l : ℚ))
  rw [if_neg (by simpa [List.isEmpty_iff] using hne)]

theorem parseFloatStripped_renderNat (n : Nat) :
    parseFloatStripped (renderNat n) = some ((n : ℚ)) := by
  have hdig := renderNat_all_digits n
  have hne : (renderNat n).data ≠ [] := by
    intro hcon
    exact renderNat_ne_empty n (congrArg String.mk hcon)
  have h := parseFloatStripped_all_digits hdig hne
  rw [show String.mk (renderNat n).data = renderNat n from rfl] at h
  rw [h]
  congr 1
  rcases Nat.eq_zero_or_pos n with rfl | hn
  · norm_num [renderNat, digitsToNat, digitVal_c0]
  · rw [show (renderNat n).data = ((Nat.digits 10 n).map digitChar).reverse by
      unfold renderNat
      rw [if_neg (by omega)]]
    rw [digitsToNat_digits]

theorem stripNonPrice_renderNat (n : Nat) :
    stripNonPrice (renderNat n) = renderNat n := by
  unfold stripNonPrice
  rw [List.filter_eq_self.mpr]
  intro c hc
  simp [isPriceChar, renderNat_all_digits n c hc]

/-- Rendering a Money amount to decimal text and normalizing it recovers the
amount: both sides of the cart's sum-equals-total check pass through the same
normalizer without drift. -/
theorem parsePrice_renderNat (n : Nat) : parsePrice (renderNat n) = n := by
  simp only [parsePrice, stripNonPrice_renderNat, if_neg (renderNat_ne_empty n),
    parseFloatStripped_renderNat]
  exact jsRound_natCast n

/-! ## Cart data model and `CartPage` operations -/

/-- Modelled from the spec: one product entry in the cart view, owned by the
storefront — a display name and a unit price (Money amount). -/
structure LineItem where
  name : String
  price : Nat
deriving DecidableEq

/-- Modelled from the spec: the storefront's cart state, an ordered sequence
of line items.  All raw texts the collaborator reports (row names, row price
texts, aggregate total text) are derived from it. -/
structure Store where
  items : List LineItem
deriving DecidableEq

/-- Failure conditions of the cart operations, per the spec's error
taxonomy: `outOfRange` for a position argument beyond the current item
count, `notFound` for a missing deletion target. -/
inductive CartError
  | outOfRange
  | notFound
deriving DecidableEq

/-- Modelled from the spec: the collaborator's raw name text for the row at
a position, when a row is there. -/
def rowNameText (s : Store) (i : Nat) : Option String :=
  (s.items[i]?).map fun it => it.name

/-- Modelled from the spec: the collaborator's raw price text for the row at
a position, when a row is there — the decimal rendering of the amount. -/
def rowPriceText (s : Store) (i : Nat) : Option String :=
  (s.items[i]?).map fun it => renderNat it.price

/-- Modelled from the spec: the raw text of the reported aggregate total.
The storefront is the oracle: it reports the rendered sum of its line-item
amounts. -/
def reportedTotalText (s : Store) : String :=
  renderNat ((s.items.map fun it => it.price).sum)

/-- `CartPage.countItems`: the number of rows currently visible. -/
def countItems (s : Store) : Nat := s.items.length

/-- JS `String.prototype.trim`, as applied in `getRowName` to the raw text
content: drop whitespace from both ends. -/
def jsTrim (s : String) : String :=
  String.mk (((s.data.dropWhile Char.isWhitespace).reverse.dropWhile
    Char.isWhitespace).reverse)

/-- `CartPage.getRowName`: the trimmed name text of the row at index `i`; a
position with no row there fails (the locator never resolves), per the spec
an `OutOfRange` condition.  A read has no side effect. -/
def getRowName (s : Store) (i : Nat) : Except CartError String :=
  match rowNameText s i with
  | some t => .ok (jsTrim t)
  | none => .error .outOfRange

/-- `CartPage.getRowPrice`: the raw price text of the row at index `i`
passed through the price normalizer; a position with no row there fails,
per the spec an `OutOfRange` condition.  A read has no side effect. -/
def getRowPrice (s : Store) (i : Nat) : Except CartError Int :=
  match rowPriceText s i with
  | some t => .ok (parsePrice t)
  | none => .error .outOfRange

/-- `CartPage.getTotal`: the reported aggregate text passed through the
price normalizer. -/
def getTotal (s : Store) : Int := parsePrice (reportedTotalText s)

/-- `CartPage.deleteByIndex`: request removal of the row at index `i`, then
wait for the row's detached state before returning, so the returned state is
the settled one with the row removed and later rows renumbered.  A position
with no row there fails, per the spec's `deleteAt` contract a `NotFound`
condition. -/
def deleteByIndex (s : Store) (i : Nat) : Except CartError Store :=
  if i < countItems s then .ok ⟨s.items.eraseIdx i⟩ else .error .notFound

/-- The loop body of `CartPage.clearCart`: `for (let i = itemCount - 1;
i >= 0; i--) await this.deleteByIndex(i)`, deleting from the highest
position down to the lowest. -/
def clearLoop : Nat → Store → Except CartError Store
  | 0, s => .ok s
  | k + 1, s =>
      match deleteByIndex s k with
      | .ok s2 => clearLoop k s2
      | .error e => .error e

/-- `CartPage.clearCart`: if the cart is already empty, do nothing;
otherwise delete every row from the last index down to the first. -/
def clearCart (s : Store) : Except CartError Store :=
  if countItems s = 0 then .ok s else clearLoop (countItems s) s

/-- The scan loop of `CartPage.deleteByName`: for `i` from `0` to `n - 1`,
if the trimmed row name at `i` equals the target, delete at `i` and return;
falling off the end of the loop fails, per the spec a `NotFound` condition.
The fuel argument counts the remaining iterations. -/
def deleteByNameLoop (s : Store) (nm : String) : Nat → Nat → Except CartError Store
  | 0, _ => .error .notFound
  | fuel + 1, i =>
      match getRowName s i with
      | .ok rn => if rn = nm then deleteByIndex s i else deleteByNameLoop s nm fuel (i + 1)
      | .error e => .error e

/-- `CartPage.deleteByName`: scan the current rows in position order for an
exact name match and delete the first match. -/
def deleteByName (s : Store) (nm : String) : Except CartError Store :=
  deleteByNameLoop s nm (countItems s) 0

/-- The amount of the line item at a position, zero defaulted beyond the end
(positions in `[0, itemCount())` always succeed). -/
def lineAmount (s : Store) (i : Nat) : Int :=
  match getRowPrice s i with
  | .ok p => p
  | .error _ => 0

/-- Modelled from the spec: `verifyTotalMatchesSum` — compute
`sum(lineItem(i).amount for i in [0, itemCount()))` and compare it to
`total()`; true iff exactly equal. -/
def verifyTotalMatchesSum (s : Store) : Bool :=
  getTotal s == ((List.range (countItems s)).map (lineAmount s)).sum

/-! ### Claims about the cart -/

theorem lineAmount_cons (a : LineItem) (l : List LineItem) (i : Nat) :
    lineAmount ⟨a :: l⟩ (i + 1) = lineAmount ⟨l⟩ i := by
  simp [lineAmount, getRowPrice, rowPriceText]

theorem lineAmount_zero (a : LineItem) (l : List LineItem) :
    lineAmount ⟨a :: l⟩ 0 = (a.price : Int) := by
  simp [lineAmount, getRowPrice, rowPriceText, parsePrice_renderNat]

theorem sum_lineAmounts (l : List LineItem) :
    ((List.range l.length).map (lineAmount ⟨l⟩)).sum
      = ((l.map fun it => (it.price : Int)).sum) := by
  induction l with
  | nil => simp
  | cons a l ih =>
    rw [List.length_cons, List.range_succ_eq_map]
    simp only [List.map_cons, List.sum_cons, List.map_map, Function.comp_def,
      Nat.succ_eq_add_one, lineAmount_cons, lineAmount_zero]
    rw [ih]

theorem getTotal_eq (s : Store) :
    getTotal s = (((s.items.map fun it => it.price).sum : Nat) : Int) :=
  parsePrice_renderNat _

/-- C1: for every cart snapshot, the normalized reported total equals the
sum of the normalized unit prices of the line items, `total() ==
sum(lineItem(i).amount for i in [0, itemCount()))`; for an empty cart it
holds trivially with `total() == 0`.  The snapshot is one atomic read of the
storefront state, so the invariant holds whenever a snapshot is taken — in
particular right after opening the cart and after any add or delete
settles. -/
theorem cart_total_matches_sum (s : Store) :
    verifyTotalMatchesSum s = true ∧ (countItems s = 0 → getTotal s = 0) := by
  obtain ⟨l⟩ := s
  constructor
  · rw [verifyTotalMatchesSum, beq_iff_eq, getTotal_eq]
    rw [show countItems ⟨l⟩ = l.length from rfl, sum_lineAmounts]
    rw [show (⟨l⟩ : Store).items = l from rfl]
    rw [Nat.cast_list_sum, List.map_map]
    rfl
  · intro h
    have : l = [] := List.length_eq_zero.mp h
    subst this
    rw [getTotal_eq]
    rfl

theorem cart_total_matches_sum_witness :
    verifyTotalMatchesSum ⟨[]⟩ = true ∧ getTotal ⟨[]⟩ = 0 :=
  ⟨(cart_total_matches_sum ⟨[]⟩).1, (cart_total_matches_sum ⟨[]⟩).2 rfl⟩

/-- C7: reading a line item at a position outside `[0, itemCount())` fails
with `OutOfRange` for both the name and the price accessor (a read has no
side effect — the accessors are functions of the snapshot and return no
modified state); at a position in range, the raw price text reported by the
collaborator is passed through the price normalizer before being
returned. -/
theorem lineItem_range_and_normalized (s : Store) (i : Nat) :
    (countItems s ≤ i →
      getRowName s i = .error .outOfRange ∧ getRowPrice s i = .error .outOfRange) ∧
    (∀ it, s.items[i]? = some it →
      getRowName s i = .ok (jsTrim it.name) ∧
        getRowPrice s i = .ok (parsePrice (renderNat it.price))) := by
  constructor
  · intro h
    have hnone : s.items[i]? = none := List.getElem?_eq_none h
    constructor <;> simp [getRowName, getRowPrice, rowNameText, rowPriceText, hnone]
  · intro it hit
    constructor <;> simp [getRowName, getRowPrice, rowNameText, rowPriceText, hit]

theorem lineItem_range_and_normalized_witness :
    (getRowName ⟨[⟨"Sony vaio i5", 790⟩]⟩ 1 = .error .outOfRange ∧
      getRowPrice ⟨[⟨"Sony vaio i5", 790⟩]⟩ 1 = .error .outOfRange) ∧
    (getRowName ⟨[⟨"Sony vaio i5", 790⟩]⟩ 0 = .ok "Sony vaio i5" ∧
      getRowPrice ⟨[⟨"Sony vaio i5", 790⟩]⟩ 0
        = .ok (parsePrice (renderNat 790))) := by
  constructor
  · exact (lineItem_range_and_normalized ⟨[⟨"Sony vaio i5", 790⟩]⟩ 1).1 (by decide)
  · have h := (lineItem_range_and_normalized ⟨[⟨"Sony vaio i5", 790⟩]⟩ 0).2
      ⟨"Sony vaio i5", 790⟩ rfl
    refine ⟨?_, h.2⟩
    rw [h.1]
    exact congrArg Except.ok (by decide)

/-- C8: `deleteByIndex` at a position with no row there fails with
`NotFound` at call time; at a position in range it returns only once the
collaborator confirms the removal, so the state it returns is the settled
one: the row at the position is erased and later rows are renumbered, the
item count dropping by exactly one. -/
theorem deleteByIndex_range_and_settled (s : Store) (i : Nat) :
    (countItems s ≤ i → deleteByIndex s i = .error .notFound) ∧
    (i < countItems s → ∃ s2, deleteByIndex s i = .ok s2 ∧
      s2.items = s.items.eraseIdx i ∧ countItems s2 + 1 = countItems s) := by
  constructor
  · intro h
    rw [deleteByIndex, if_neg (by omega)]
  · intro h
    refine ⟨⟨s.items.eraseIdx i⟩, by rw [deleteByIndex, if_pos h], rfl, ?_⟩
    exact List.length_eraseIdx_add_one h

theorem deleteByIndex_range_and_settled_witness :
    deleteByIndex ⟨[⟨"Nexus 6", 650⟩]⟩ 1 = .error .notFound ∧
      deleteByIndex ⟨[⟨"Nexus 6", 650⟩]⟩ 0 = .ok ⟨[]⟩ := by
  constructor
  · exact (deleteByIndex_range_and_settled ⟨[⟨"Nexus 6", 650⟩]⟩ 1).1 (by decide)
  · obtain ⟨s2, h1, h2, _⟩ :=
      (deleteByIndex_range_and_settled ⟨[⟨"Nexus 6", 650⟩]⟩ 0).2 (by decide)
    obtain ⟨l⟩ := s2
    simp only [List.eraseIdx] at h2
    subst h2
    exact h1

theorem clearLoop_ok (k : Nat) :
    ∀ s : Store, countItems s = k → clearLoop k s = .ok ⟨[]⟩ := by
  induction k with
  | zero =>
    intro s h
    obtain ⟨l⟩ := s
    have : l = [] := List.length_eq_zero.mp h
    subst this
    rfl
  | succ k ih =>
    intro s h
    have hh : s.items.length = k + 1 := h
    have hk : k < countItems s := by
      show k < s.items.length
      omega
    rw [clearLoop, deleteByIndex, if_pos hk]
    refine ih _ ?_
    have hlen := List.length_eraseIdx_add_one (show k < s.items.length by omega)
    show (s.items.eraseIdx k).length = k
    omega

/-- C5: `clearCart` deletes rows one at a time from the highest position
down to the lowest and terminates with `itemCount() == 0`; it is idempotent,
and on an already-empty cart it performs no deletion and leaves the cart
unchanged. -/
theorem clearCart_empties_and_idempotent (s : Store) :
    ∃ s1, clearCart s = .ok s1 ∧ countItems s1 = 0 ∧ clearCart s1 = .ok s1 ∧
      (countItems s = 0 → s1 = s) := by
  refine ⟨⟨[]⟩, ?_, rfl, rfl, ?_⟩
  · rw [clearCart]
    split
    · obtain ⟨l⟩ := s
      have : l = [] := List.length_eq_zero.mp (by assumption)
      subst this
      rfl
    · exact clearLoop_ok _ s rfl
  · intro h
    obtain ⟨l⟩ := s
    have : l = [] := List.length_eq_zero.mp h
    subst this
    rfl

theorem clearCart_empties_and_idempotent_witness :
    clearCart ⟨[]⟩ = .ok ⟨[]⟩ := by
  obtain ⟨s1, h1, _, _, h4⟩ := clearCart_empties_and_idempotent ⟨[]⟩
  rw [h4 rfl] at h1
  exact h1

theorem getRowName_of_getElem {s : Store} {i : Nat} {it : LineItem}
    (h : s.items[i]? = some it) : getRowName s i = .ok (jsTrim it.name) := by
  simp [getRowName, rowNameText, h]

theorem getRowName_of_none {s : Store} {i : Nat}
    (h : s.items[i]? = none) : getRowName s i = .error .outOfRange := by
  simp [getRowName, rowNameText, h]

theorem deleteByNameLoop_no_match (s : Store) (nm : String) :
    ∀ fuel i : Nat, fuel + i ≤ countItems s →
      (∀ (j : Nat) (it : LineItem), s.items[j]? = some it → jsTrim it.name ≠ nm) →
      deleteByNameLoop s nm fuel i = .error .notFound := by
  intro fuel
  induction fuel with
  | zero => intro i _ _; rfl
  | succ fuel ih =>
    intro i hle hno
    have hi : i < countItems s := by omega
    have hit : s.items[i]? = some s.items[i] := List.getElem?_eq_getElem hi
    rw [deleteByNameLoop, getRowName_of_getElem hit]
    show (if jsTrim s.items[i].name = nm then _ else _) = _
    rw [if_neg (hno i _ hit)]
    exact ih (i + 1) (by omega) hno

theorem deleteByNameLoop_ok (s : Store) (nm : String) :
    ∀ (fuel i : Nat) (s2 : Store), deleteByNameLoop s nm fuel i = .ok s2 →
      ∃ (k : Nat) (it : LineItem), i ≤ k ∧ s.items[k]? = some it ∧
        jsTrim it.name = nm ∧
        (∀ (j : Nat) (it2 : LineItem), i ≤ j → j < k →
          s.items[j]? = some it2 → jsTrim it2.name ≠ nm) ∧
        s2.items = s.items.eraseIdx k := by
  intro fuel
  induction fuel with
  | zero =>
    intro i s2 h
    exact absurd h (by rw [deleteByNameLoop]; exact fun hcon => by cases hcon)
  | succ fuel ih =>
    intro i s2 h
    rw [deleteByNameLoop] at h
    cases hrow : s.items[i]? with
    | none =>
      rw [getRowName_of_none hrow] at h
      cases h
    | some it =>
      rw [getRowName_of_getElem hrow] at h
      by_cases hm : jsTrim it.name = nm
      · rw [show (match Except.ok (jsTrim it.name) with
            | Except.ok rn =>
                if rn = nm then deleteByIndex s i
                else deleteByNameLoop s nm fuel (i + 1)
            | Except.error e => Except.error e)
            = if jsTrim it.name = nm then deleteByIndex s i
              else deleteByNameLoop s nm fuel (i + 1) from rfl,
          if_pos hm, deleteByIndex] at h
        split at h
        · obtain rfl : (⟨s.items.eraseIdx i⟩ : Store) = s2 := Except.ok.inj h
          exact ⟨i, it, le_refl i, hrow, hm, by omega, rfl⟩
        · cases h
      · rw [show (match Except.ok (jsTrim it.name) with
            | Except.ok rn =>
                if rn = nm then deleteByIndex s i
                else deleteByNameLoop s nm fuel (i + 1)
            | Except.error e => Except.error e)
            = if jsTrim it.name = nm then deleteByIndex s i
              else deleteByNameLoop s nm fuel (i + 1) from rfl,
          if_neg hm] at h
        obtain ⟨k, it2, hik, hk, hknm, hpre, hs2⟩ := ih (i + 1) s2 h
        refine ⟨k, it2, by omega, hk, hknm, ?_, hs2⟩
        intro j itj hij hjk hj
        rcases Nat.eq_or_lt_of_le hij with rfl | hlt
        · rw [hrow] at hj
          obtain rfl : it = itj := Option.some.inj hj
          exact hm
        · exact hpre j itj (by omega) hjk hj

/-- C6: `deleteByName` scans the current line items in position order for an
exact (trimmed) name match: when no line item has the name it fails with
`NotFound` and performs no deletion, leaving the item count unchanged; when
it succeeds it has deleted exactly the first match and nothing else, the
item count dropping by exactly one. -/
theorem deleteByName_first_match (s : Store) (nm : String) :
    ((∀ it ∈ s.items, jsTrim it.name ≠ nm) →
      deleteByName s nm = .error .notFound) ∧
    (∀ s2, deleteByName s nm = .ok s2 →
      ∃ (k : Nat) (it : LineItem), s.items[k]? = some it ∧
        jsTrim it.name = nm ∧
        (∀ (j : Nat) (it2 : LineItem), j < k → s.items[j]? = some it2 →
          jsTrim it2.name ≠ nm) ∧
        s2.items = s.items.eraseIdx k ∧ countItems s2 + 1 = countItems s) := by
  constructor
  · intro hno
    refine deleteByNameLoop_no_match s nm (countItems s) 0 (by omega) ?_
    intro j it hj
    exact hno it (List.getElem?_mem hj)
  · intro s2 h
    obtain ⟨k, it, _, hk, hnm, hpre, hs2⟩ :=
      deleteByNameLoop_ok s nm (countItems s) 0 s2 h
    have hklt : k < s.items.length := by
      rcases List.getElem?_eq_some.mp hk with ⟨hlt, _⟩
      exact hlt
    refine ⟨k, it, hk, hnm, ?_, hs2, ?_⟩
    · intro j it2 hjk hj
      exact hpre j it2 (Nat.zero_le j) hjk hj
    · show s2.items.length + 1 = s.items.length
      rw [hs2]
      exact List.length_eraseIdx_add_one hklt

theorem deleteByName_first_match_witness :
    deleteByName ⟨[⟨"Sony vaio i5", 790⟩]⟩ "Sony vaio i7"
      = .error .notFound :=
  (deleteByName_first_match ⟨[⟨"Sony vaio i5", 790⟩]⟩ "Sony vaio i7").1
    (by decide)

end Demoblaze
